import Mathlib

/-!
Verification of mv2tvdir (src/mv2tvdir.py) against its specification.

Strings are modelled as `List Char`.  Python regular-expression searches are
modelled by explicit leftmost-match scanners whose per-position matchers are
transcribed from the concrete patterns in the source (the character classes
`[.\s()\[\]]` etc.).  Python `\s` and `str.lower()`/`str.strip()` are modelled
on the ASCII range (the repository only ever handles ASCII separators); the
Unicode extension of those classes plays no role in any claim.
-/

abbrev Str := List Char

/-- ASCII model of the characters matched by the regex class `\s`. -/
def isPySpace (c : Char) : Bool :=
  c ∈ [' ', '\t', '\n', '\r', '\x0b', '\x0c']

/-- The characters replaced by `SEPARATOR_PATTERN = [\s\(\)\[\]]`
    (whitespace, parentheses, brackets; the dot is NOT a separator here). -/
def isSep (c : Char) : Bool :=
  isPySpace c || c ∈ ['(', ')', '[', ']']

/-- The boundary class `[.\s\(\)\[\]]` used by SEASON/YEAR/TV/RESOLUTION
    patterns: a dot or a separator. -/
def isBoundary (c : Char) : Bool :=
  c = '.' || isSep c

/-- The regex class `[0-9]`. -/
def isDigit (c : Char) : Bool :=
  c ∈ ['0', '1', '2', '3', '4', '5', '6', '7', '8', '9']

/-- Numeric value of a decimal digit character, as used by Python `int`. -/
def digitVal (c : Char) : Nat := c.toNat - 48

/-- ASCII model of Python `str.lower()` on a single character. -/
def pyLower (c : Char) : Char :=
  if 65 ≤ c.toNat ∧ c.toNat ≤ 90 then Char.ofNat (c.toNat + 32) else c

/-- Python `str.lower()` over a whole string. -/
def lowerStr (s : Str) : Str := s.map pyLower

/- ------------------------------------------------------------------
   normalize_filename (src/mv2tvdir.py lines 111-126)
     normalized = SEPARATOR_PATTERN.sub('.', filename)
     while '..' in normalized: normalized = normalized.replace('..', '.')
   ------------------------------------------------------------------ -/

/-- `SEPARATOR_PATTERN.sub('.', _)` on one character. -/
def sepToDot (c : Char) : Char := if isSep c then '.' else c

/-- One round of Python `s.replace('..', '.')`: non-overlapping,
    left-to-right replacement of `".."` by `"."`. -/
def replaceDD : List Char → List Char
  | [] => []
  | [c] => [c]
  | a :: b :: rest =>
    if a = '.' ∧ b = '.' then '.' :: replaceDD rest
    else a :: replaceDD (b :: rest)

/-- Python `'..' in s`: does the string contain two adjacent dots? -/
def hasDD : List Char → Bool
  | [] => false
  | [_] => false
  | a :: b :: rest =>
    if a = '.' ∧ b = '.' then true else hasDD (b :: rest)

theorem replaceDD_length_le (l : List Char) : (replaceDD l).length ≤ l.length := by
  induction l using replaceDD.induct with
  | case1 => simp [replaceDD]
  | case2 c => simp [replaceDD]
  | case3 a b rest h ih =>
    simp only [replaceDD, if_pos h, List.length_cons]
    simp only [List.length_cons] at ih ⊢
    omega
  | case4 a b rest h ih =>
    simp only [replaceDD, if_neg h, List.length_cons]
    simp only [List.length_cons] at ih ⊢
    omega

theorem replaceDD_length_lt (l : List Char) (h : hasDD l = true) :
    (replaceDD l).length < l.length := by
  induction l using replaceDD.induct with
  | case1 => simp [hasDD] at h
  | case2 c => simp [hasDD] at h
  | case3 a b rest hdd ih =>
    simp only [replaceDD, if_pos hdd, List.length_cons]
    have h2 := replaceDD_length_le rest
    omega
  | case4 a b rest hdd ih =>
    simp only [hasDD, if_neg hdd] at h
    simp only [replaceDD, if_neg hdd, List.length_cons]
    have h2 := ih h
    simp only [List.length_cons] at h2 ⊢
    omega

/-- The `while '..' in normalized` loop, run with explicit fuel.  Each
    iteration of the Python loop strictly shrinks the string
    (`replaceDD_length_lt`), so `l.length` rounds of fuel always reach the
    loop's fixed point; the fuel is only a totality device. -/
def collapseDotsFuel : Nat → List Char → List Char
  | 0, l => l
  | fuel + 1, l => if hasDD l then collapseDotsFuel fuel (replaceDD l) else l

def collapseDots (l : List Char) : List Char := collapseDotsFuel l.length l

/-- `normalize_filename`: replace separators by dots, then collapse runs of
    dots (lines 121-126 of the source). -/
def normalize_filename (filename : Str) : Str :=
  collapseDots (filename.map sepToDot)

theorem collapseDotsFuel_of_not_hasDD (fuel : Nat) (l : List Char)
    (h : hasDD l = false) : collapseDotsFuel fuel l = l := by
  cases fuel with
  | zero => rfl
  | succ n => simp [collapseDotsFuel, h]

theorem hasDD_collapseDotsFuel (fuel : Nat) (l : List Char) (h : l.length ≤ fuel) :
    hasDD (collapseDotsFuel fuel l) = false := by
  induction fuel generalizing l with
  | zero =>
    have : l = [] := List.length_eq_zero.mp (Nat.le_zero.mp h)
    subst this; rfl
  | succ n ih =>
    by_cases hdd : hasDD l = true
    · simp only [collapseDotsFuel, hdd, if_true]
      exact ih _ (by have := replaceDD_length_lt l hdd; omega)
    · have hdd' : hasDD l = false := by simpa using hdd
      simp [collapseDotsFuel, hdd']

theorem hasDD_collapseDots (l : List Char) : hasDD (collapseDots l) = false :=
  hasDD_collapseDotsFuel l.length l le_rfl

theorem collapseDots_of_not_hasDD (l : List Char) (h : hasDD l = false) :
    collapseDots l = l :=
  collapseDotsFuel_of_not_hasDD l.length l h

/-- Every character in `replaceDD l` already occurs in `l`. -/
theorem mem_replaceDD {c : Char} {l : List Char} (h : c ∈ replaceDD l) : c ∈ l := by
  induction l using replaceDD.induct with
  | case1 => simp [replaceDD] at h
  | case2 d => simpa [replaceDD] using h
  | case3 a b rest hdd ih =>
    simp only [replaceDD, if_pos hdd, List.mem_cons] at h
    rcases h with h | h
    · subst h; simp [hdd.1]
    · simp [List.mem_cons, ih h]
  | case4 a b rest hdd ih =>
    simp only [replaceDD, if_neg hdd, List.mem_cons] at h
    rcases h with h | h
    · simp [h]
    · have h2 := ih h
      simp only [List.mem_cons] at h2 ⊢
      tauto

theorem mem_collapseDotsFuel {c : Char} {fuel : Nat} {l : List Char}
    (h : c ∈ collapseDotsFuel fuel l) : c ∈ l := by
  induction fuel generalizing l with
  | zero => exact h
  | succ n ih =>
    by_cases hdd : hasDD l = true
    · simp only [collapseDotsFuel, hdd, if_true] at h
      exact mem_replaceDD (ih h)
    · have hdd' : hasDD l = false := by simpa using hdd
      simpa [collapseDotsFuel, hdd'] using h

theorem mem_collapseDots {c : Char} {l : List Char} (h : c ∈ collapseDots l) : c ∈ l :=
  mem_collapseDotsFuel h

theorem map_sepToDot_eq_self {l : List Char} (h : ∀ c ∈ l, isSep c = false) :
    l.map sepToDot = l := by
  induction l with
  | nil => rfl
  | cons a rest ih =>
    simp only [List.map_cons]
    rw [show sepToDot a = a from by simp [sepToDot, h a (List.mem_cons_self a rest)],
      ih fun c hc => h c (List.mem_cons_of_mem a hc)]

theorem sepToDot_not_sep (c : Char) : isSep (sepToDot c) = false := by
  by_cases h : isSep c = true
  · simp [sepToDot, h]; decide
  · have h' : isSep c = false := by simpa using h
    simp [sepToDot, h']

/-- C4 statement, proved below: `normalize_filename` is idempotent. -/
theorem normalize_filename_idem (x : Str) :
    normalize_filename (normalize_filename x) = normalize_filename x := by
  unfold normalize_filename
  have hfix : (collapseDots (x.map sepToDot)).map sepToDot = collapseDots (x.map sepToDot) := by
    apply map_sepToDot_eq_self
    intro c hc
    have hx : c ∈ x.map sepToDot := mem_collapseDots hc
    rcases List.mem_map.mp hx with ⟨d, _, rfl⟩
    exact sepToDot_not_sep d
  rw [hfix, collapseDots_of_not_hasDD _ (hasDD_collapseDots _)]

/- ------------------------------------------------------------------
   Path helpers (os.path.splitext / basename / dirname / join on POSIX)
   ------------------------------------------------------------------ -/

/-- `os.path.splitext` for a path component without `/`: split at the last
    dot, except when every character before that dot is itself a dot
    (leading dots carry no extension).  The reversed string is scanned: the
    part after the last dot is the reversed `takeWhile (· ≠ '.')`. -/
def splitext (s : Str) : Str × Str :=
  match s.reverse.drop (s.reverse.takeWhile (fun c => c ≠ '.')).length with
  | [] => (s, [])
  | _ :: before =>
    if before.all (fun c => c = '.') then (s, [])
    else (before.reverse, '.' :: (s.reverse.takeWhile (fun c => c ≠ '.')).reverse)

/-- `os.path.basename`: everything after the last `/`. -/
def pyBasename (p : Str) : Str :=
  (p.reverse.takeWhile (fun c => c ≠ '/')).reverse

/-- `os.path.dirname` (posixpath): everything up to the last `/`, with
    trailing slashes stripped unless the head is all slashes. -/
def dirname (p : Str) : Str :=
  let after := p.reverse.takeWhile (fun c => c ≠ '/')
  if after.length = p.length then []
  else
    let head := p.take (p.length - after.length)
    if head.all (fun c => c = '/') then head
    else (head.reverse.dropWhile (fun c => c = '/')).reverse

/-- `os.path.join a b` (posixpath, two arguments). -/
def pathJoin (a b : Str) : Str :=
  if b.head? = some '/' then b
  else if a = [] then b
  else if a.getLast? = some '/' then a ++ b
  else a ++ '/' :: b

/-- Python `str.strip()` (ASCII whitespace model). -/
def pyStrip (s : Str) : Str :=
  ((s.dropWhile isPySpace).reverse.dropWhile isPySpace).reverse

/-- Python `s.split('.')`. -/
def splitOnDot : Str → List Str
  | [] => [[]]
  | c :: rest =>
    if c = '.' then [] :: splitOnDot rest
    else
      match splitOnDot rest with
      | g :: gs => (c :: g) :: gs
      | [] => [[c]]

/-- Python `' '.join(groups)`. -/
def joinSpace : List Str → Str
  | [] => []
  | [g] => g
  | g :: gs => g ++ ' ' :: joinSpace gs

/-- Python `f"{n:02d}"` for the season number (always ≤ 99 here). -/
def fmt02 (n : Nat) : Str :=
  if n < 10 then '0' :: Nat.toDigits 10 n else Nat.toDigits 10 n

/- ------------------------------------------------------------------
   Regex engines.  Each Python `PATTERN.search(s)` is modelled by a
   scanner that tries an anchored matcher at every position from the
   left, exactly re.search's leftmost-match rule.  The anchored matchers
   transcribe the patterns; all quantifier ambiguity is resolved the way
   the backtracking engine resolves it (greedy first), which for these
   patterns is deterministic because the character classes involved
   ([0-9], [Ee], boundary) are pairwise disjoint.
   ------------------------------------------------------------------ -/

/-- Tail of SEASON_PATTERN after the episode `[Ee]`:
    `[0-9]{1,2}[.\s\(\)\[\]]`. -/
def epDigits : Str → Bool
  | d1 :: d2 :: rest =>
    isDigit d1 &&
      (if isDigit d2 then
        match rest with
        | b :: _ => isBoundary b
        | [] => false
      else isBoundary d2)
  | _ => false

/-- `[Ee][0-9]{1,2}[.\s\(\)\[\]]`. -/
def epPart : Str → Bool
  | e :: rest => (e = 'E' || e = 'e') && epDigits rest
  | [] => false

/-- `([0-9]{1,2})[Ee][0-9]{1,2}[.\s\(\)\[\]]`, returning the captured
    season number (Python `int(group(1))`). -/
def seasonDigits : Str → Option Nat
  | [] => none
  | d1 :: rest =>
    if isDigit d1 then
      match rest with
      | d2 :: rest2 =>
        if isDigit d2 then
          if epPart rest2 then some (10 * digitVal d1 + digitVal d2) else none
        else if epPart rest then some (digitVal d1) else none
      | [] => none
    else none

/-- SEASON_PATTERN anchored at the head of the list:
    `[.\s\(\)\[\]][Ss]([0-9]{1,2})[Ee][0-9]{1,2}[.\s\(\)\[\]]`.
    TV_SHOW_PATTERN is the identical regex without the capture group. -/
def seasonHere : Str → Option Nat
  | b :: s :: rest =>
    if isBoundary b = true ∧ (s = 'S' ∨ s = 's') then seasonDigits rest else none
  | _ => none

/-- `SEASON_PATTERN.search`, returning (match start, season number). -/
def searchSeasonAux : Str → Nat → Option (Nat × Nat)
  | [], _ => none
  | c :: rest, i =>
    match seasonHere (c :: rest) with
    | some n => some (i, n)
    | none => searchSeasonAux rest (i + 1)

/-- YEAR_PATTERN anchored at the head:
    `[.\s\(\)\[\]](19[0-9]{2}|20[0-9]{2})[.\s\(\)\[\]]`. -/
def yearHere : Str → Bool
  | b :: y1 :: y2 :: y3 :: y4 :: b2 :: _ =>
    isBoundary b && ((y1 = '1' && y2 = '9') || (y1 = '2' && y2 = '0')) &&
      isDigit y3 && isDigit y4 && isBoundary b2
  | _ => false

/-- `YEAR_PATTERN.search`, returning the match start. -/
def searchYearAux : Str → Nat → Option Nat
  | [], _ => none
  | c :: rest, i =>
    if yearHere (c :: rest) then some i else searchYearAux rest (i + 1)

/-- RESOLUTION_PATTERN anchored at the head:
    `[.\s\(\)\[\]](\d+p)[.\s\(\)\[\]]`, returning group 1. -/
def resHere : Str → Option Str
  | [] => none
  | b :: rest =>
    if isBoundary b then
      let ds := rest.takeWhile isDigit
      match rest.drop ds.length with
      | 'p' :: b2 :: _ => if ds ≠ [] ∧ isBoundary b2 = true then some (ds ++ ['p']) else none
      | _ => none
    else none

def searchResAux : Str → Option Str
  | [] => none
  | c :: rest =>
    match resHere (c :: rest) with
    | some g => some g
    | none => searchResAux rest

/-- CODEC_PATTERN anchored at the head:
    `[.\s\(\)\[\]](x26[45])[.\s\(\)\[\]-]`, returning group 1. -/
def codecHere : Str → Option Str
  | b :: 'x' :: '2' :: '6' :: d :: b2 :: _ =>
    if isBoundary b = true ∧ (d = '4' ∨ d = '5') ∧ (isBoundary b2 = true ∨ b2 = '-') then
      some ['x', '2', '6', d]
    else none
  | _ => none

def searchCodecAux : Str → Option Str
  | [] => none
  | c :: rest =>
    match codecHere (c :: rest) with
    | some g => some g
    | none => searchCodecAux rest

/- ------------------------------------------------------------------
   Classifier and extractor (lines 67-170)
   ------------------------------------------------------------------ -/

/-- `is_tv_show` (lines 67-77): TV_SHOW_PATTERN search on the raw name. -/
def is_tv_show (filename : Str) : Bool :=
  (searchSeasonAux filename 0).isSome

/-- `match_resolution_and_codec` (lines 80-108). -/
def match_resolution_and_codec (filename : Str) (target_resolution target_codec : Option Str) :
    Bool :=
  if target_resolution = none ∧ target_codec = none then true
  else
    (match target_resolution with
     | none => true
     | some t =>
       match searchResAux filename with
       | none => false
       | some g => lowerStr g = lowerStr t) &&
    (match target_codec with
     | none => true
     | some t =>
       match searchCodecAux filename with
       | none => false
       | some g => lowerStr g = lowerStr t)

/-- `extract_show_info` (lines 129-170); `(None, None)` becomes `none`. -/
def extract_show_info (filename : Str) : Option (Str × Str) :=
  let basename := (splitext filename).1
  let normalized_basename := normalize_filename basename
  match searchSeasonAux normalized_basename 0 with
  | none => none
  | some (sStart, season_num) =>
    let season_str := 'S' :: fmt02 season_num
    let cut :=
      match searchYearAux normalized_basename 0 with
      | some yStart => yStart
      | none => sStart
    let show_name := pyStrip (joinSpace (splitOnDot (normalized_basename.take cut)))
    if show_name = [] then none else some (show_name, season_str)

/- ------------------------------------------------------------------
   Extension constants (lines 44-49)
   ------------------------------------------------------------------ -/

def VIDEO_EXTENSIONS : List Str := [".mkv".toList, ".mp4".toList, ".avi".toList]

def SUBTITLE_EXTENSIONS : List Str := [".srt".toList, ".ass".toList, ".sub".toList]

def IGNORED_EXTENSIONS : List Str :=
  [".nfo".toList, ".txt".toList, ".jpg".toList, ".jpeg".toList, ".png".toList, ".gif".toList]

/- ------------------------------------------------------------------
   Filesystem tree model for the cleanup component (lines 257-284).
   A directory's contents are a list of entries; `os.listdir` + `isfile`
   sees exactly the immediate `file` entries.
   ------------------------------------------------------------------ -/

inductive FS where
  | file : Str → FS
  | dir : Str → List FS → FS

/-- The regular files directly inside a directory
    (`[f for f in os.listdir(d) if os.path.isfile(...)]`). -/
def immediateFiles (entries : List FS) : List Str :=
  entries.filterMap fun e =>
    match e with
    | .file n => some n
    | .dir _ _ => none

/-- `can_remove_directory` (lines 257-284).  The existence/isdir guard is
    modelled by returning false on a file node. -/
def can_remove_directory : FS → Bool
  | .file _ => false
  | .dir _ entries =>
    let files := immediateFiles entries
    if files = [] then true
    else files.all fun f => decide (lowerStr (splitext f).2 ∈ IGNORED_EXTENSIONS)

mutual

/-- All file names anywhere beneath a node — what `shutil.rmtree` deletes. -/
def filesBeneath : FS → List Str
  | .file n => [n]
  | .dir _ entries => filesBeneathList entries

/-- Companion of `filesBeneath` for entry lists. -/
def filesBeneathList : List FS → List Str
  | [] => []
  | e :: es => filesBeneath e ++ filesBeneathList es

end

/- ------------------------------------------------------------------
   Run configuration and filesystem oracles.  The external filesystem
   collaborator (existence checks, mkdir outcomes, move outcomes) is
   modelled as a fixed environment of oracles consulted exactly where
   the source performs the corresponding call.
   ------------------------------------------------------------------ -/

structure Cfg where
  resolution : Option Str
  codec : Option Str
  requireAiSubtitle : Bool
  overrideFiles : Bool

inductive MkdirErr where
  | permission
  | osErr
deriving DecidableEq

structure Env where
  /-- `os.walk(source_dir, topdown=False)`: (root, files) in visit order. -/
  walk : List (Str × List Str)
  /-- `os.path.exists` for the `.ai.srt` probe of `has_ai_subtitle`. -/
  aiExists : Str → Bool
  /-- `os.path.exists` inside `create_target_directory`. -/
  dirExists : Str → Bool
  /-- Outcome of `os.makedirs`: `none` = success, `some` = raised. -/
  mkdirErr : Str → Option MkdirErr
  /-- `os.path.exists(target_path)` inside `move_file`. -/
  destExists : Str → Bool
  /-- Whether `shutil.move(src, dst)` raises. -/
  moveRaises : Str → Str → Bool

/-- `has_ai_subtitle` (lines 173-190). -/
def has_ai_subtitle (env : Env) (video_file_path : Str) : Bool :=
  let video_dir := dirname video_file_path
  let video_name := (splitext (pyBasename video_file_path)).1
  env.aiExists (pathJoin video_dir (video_name ++ ".ai.srt".toList))

/-- `create_target_directory` (lines 213-254).  Besides the source's return
    value (the season directory, or `none` on failure) the second component
    records, in order, the directories `os.makedirs` was invoked on. -/
def create_target_directory (env : Env) (base_dir show_name season : Str) :
    Option Str × List Str :=
  let normalized_show_name := normalize_filename show_name
  let show_dir := pathJoin base_dir normalized_show_name
  let step1 : Option (List Str) :=
    if env.dirExists show_dir then some []
    else
      match env.mkdirErr show_dir with
      | none => some [show_dir]
      | some _ => none
  match step1 with
  | none => (none, [show_dir])
  | some made =>
    let season_dir := pathJoin show_dir season
    if env.dirExists season_dir then (some season_dir, made)
    else
      match env.mkdirErr season_dir with
      | none => (some season_dir, made ++ [season_dir])
      | some _ => (none, made ++ [season_dir])

/-- The destination filename `move_file` composes (lines 299-311):
    normalize the basename, then force the original extension back on
    (Python `normalized[:-len(ext)] + ext`; for `len(ext) = 0` that
    slice is the empty string). -/
def move_target_name (source_path : Str) : Str :=
  let filename := pyBasename source_path
  let ext := (splitext filename).2
  let normalized := normalize_filename filename
  if ext.isSuffixOf normalized then
    (if ext.length = 0 then [] else normalized.take (normalized.length - ext.length)) ++ ext
  else normalized

/-- `move_file` (lines 287-327).  First component: the returned success
    flag; second: whether `shutil.move` was invoked at all. -/
def move_file (env : Env) (source_path target_dir : Str) (override_files : Bool) :
    Bool × Bool :=
  let target_path := pathJoin target_dir (move_target_name source_path)
  if env.destExists target_path = true ∧ override_files = false then (false, false)
  else if env.moveRaises source_path target_path then (false, true)
  else (true, true)

/- ------------------------------------------------------------------
   The two-phase association engine (process_directory, lines 330-473)
   ------------------------------------------------------------------ -/

inductive FileOutcome where
  /-- extension not in the phase's set: the `continue` on lines 361/418. -/
  | notMedia
  /-- counted in `skipped_count`. -/
  | skipped
  /-- counted in `failure_count`. -/
  | failed
  /-- moved successfully into the recorded target directory. -/
  | moved : Str → FileOutcome
deriving DecidableEq

/-- Phase-1 treatment of a single video candidate (lines 358-411). -/
def phase1Step (cfg : Cfg) (env : Env) (base root filename : Str) : FileOutcome :=
  if lowerStr (splitext filename).2 ∈ VIDEO_EXTENSIONS then
    if is_tv_show filename then
      if match_resolution_and_codec filename cfg.resolution cfg.codec then
        let source_path := pathJoin root filename
        if cfg.requireAiSubtitle = true ∧ has_ai_subtitle env source_path = false then
          .skipped
        else
          match extract_show_info filename with
          | none => .failed
          | some (show_name, season) =>
            match (create_target_directory env base show_name season).1 with
            | none => .failed
            | some target_dir =>
              if (move_file env source_path target_dir cfg.overrideFiles).1 then
                .moved target_dir
              else .failed
      else .skipped
    else .skipped
  else .notMedia

/-- Python dict assignment `d[k] = v`: update in place if the key exists
    (keeping its position in iteration order), else append. -/
def dictInsert (k : Str) (v : Str × Str) : List (Str × (Str × Str)) → List (Str × (Str × Str))
  | [] => [(k, v)]
  | (k', v') :: rest => if k' = k then (k, v) :: rest else (k', v') :: dictInsert k v rest

/-- Phase 1 over the whole walk, producing `moved_videos`
    (`{video_basename: (target_dir, root)}`, lines 353-411). -/
def phase1 (cfg : Cfg) (env : Env) (base : Str) : List (Str × (Str × Str)) :=
  env.walk.foldl
    (fun mv entry =>
      entry.2.foldl
        (fun mv filename =>
          match phase1Step cfg env base entry.1 filename with
          | .moved td => dictInsert (splitext filename).1 (td, entry.1) mv
          | _ => mv)
        mv)
    []

/-- The `for video_basename, (target_dir, video_root) in moved_videos.items()`
    search of lines 437-441: first record from the same directory whose key
    is a prefix of the subtitle's stem. -/
def findVideo (root subtitle_basename : Str) :
    List (Str × (Str × Str)) → Option (Str × Str)
  | [] => none
  | (vb, (td, vr)) :: rest =>
    if vr = root ∧ vb.isPrefixOf subtitle_basename = true then some (td, vb)
    else findVideo root subtitle_basename rest

/-- Phase-2 treatment of a single subtitle candidate (lines 415-457). -/
def phase2Step (cfg : Cfg) (env : Env) (mv : List (Str × (Str × Str)))
    (root filename : Str) : FileOutcome :=
  if lowerStr (splitext filename).2 ∈ SUBTITLE_EXTENSIONS then
    if is_tv_show filename then
      if match_resolution_and_codec filename cfg.resolution cfg.codec then
        let source_path := pathJoin root filename
        let subtitle_basename := (splitext filename).1
        match findVideo root subtitle_basename mv with
        | none => .skipped
        | some (target_dir, _) =>
          if (move_file env source_path target_dir cfg.overrideFiles).1 then
            .moved target_dir
          else .failed
      else .skipped
    else .skipped
  else .notMedia

/- ------------------------------------------------------------------
   Cleanup ordering (lines 460-471):
   sorted(processed_dirs, key=lambda x: x.count(os.sep), reverse=True)
   ------------------------------------------------------------------ -/

/-- `x.count(os.sep)` with `os.sep = '/'`. -/
def sepCount (p : Str) : Nat := p.count '/'

/-- Stable descending insertion by `sepCount` (a later element goes after
    existing elements of equal key, matching Python's stable sort). -/
def insertDeep (x : Str) : List Str → List Str
  | [] => [x]
  | y :: ys => if sepCount x ≤ sepCount y then y :: insertDeep x ys else x :: y :: ys

/-- The `sorted_dirs` of line 462. -/
def sorted_dirs (processed_dirs : List Str) : List Str :=
  processed_dirs.foldl (fun acc x => insertDeep x acc) []

/- ------------------------------------------------------------------
   Pre-flight checks and exit code (main, lines 476-538)
   ------------------------------------------------------------------ -/

structure MainEnv where
  isdir : Str → Bool
  pathExists : Str → Bool
  /-- `os.access(d, os.R_OK | os.W_OK)`. -/
  accessRW : Str → Bool
  /-- `os.access(d, os.W_OK)`. -/
  accessW : Str → Bool

/-- The `while parent_dir and not os.path.exists(parent_dir)` walk-up of
    lines 205-207, totalised with fuel: `dirname` strictly shortens every
    path that is not all slashes, so `p.length + 1` rounds suffice for any
    path on which the Python loop terminates. -/
def walkUpParents (menv : MainEnv) : Nat → Str → Str
  | 0, p => p
  | n + 1, p =>
    if p ≠ [] ∧ menv.pathExists p = false then walkUpParents menv n (dirname p) else p

/-- `check_directory_permissions` (lines 193-210). -/
def check_directory_permissions (menv : MainEnv) (directory : Str) : Bool :=
  if menv.pathExists directory then menv.accessRW directory
  else
    let parent_dir := walkUpParents menv (directory.length + 1) (dirname directory)
    if parent_dir ≠ [] then menv.accessW parent_dir else false

/-- The exit code of `main` (lines 498-511 decide 1; otherwise the run
    completes and the process exits 0).  The aggregate counters produced by
    `process_directory` are taken as an opaque argument to express that the
    exit code never depends on them. -/
def mainExitCode (menv : MainEnv) (source_dir target_dir : Str)
    (_counts : Nat × Nat × Nat × Nat) : Nat :=
  if menv.isdir source_dir = false then 1
  else if menv.isdir target_dir = false then 1
  else if check_directory_permissions menv target_dir = false then 1
  else 0

/- ------------------------------------------------------------------
   Shared concrete environments for witnesses and counterexamples
   ------------------------------------------------------------------ -/

/-- Oracle environment in which every filesystem operation succeeds and no
    target path exists yet. -/
def envAllClear : Env where
  walk := []
  aiExists := fun _ => true
  dirExists := fun _ => false
  mkdirErr := fun _ => none
  destExists := fun _ => false
  moveRaises := fun _ _ => false

/-- Like `envAllClear` but every destination path already exists. -/
def envDestTaken : Env := { envAllClear with destExists := fun _ => true }

/-- Like `envAllClear` but every directory already exists. -/
def envDirsExist : Env := { envAllClear with dirExists := fun _ => true }

/-- Only the show directory `/tv/Show` exists. -/
def envShowDirOnly : Env :=
  { envAllClear with dirExists := fun d => decide (d = "/tv/Show".toList) }

/-- `/tv/Show` exists, creating anything else raises PermissionError. -/
def envShowDirOnlyMkdirFails : Env :=
  { envShowDirOnly with mkdirErr := fun _ => some .permission }

/-- Nothing exists and every makedirs call raises PermissionError. -/
def envMkdirFails : Env := { envAllClear with mkdirErr := fun _ => some .permission }

/-- Only the season directory `/tv/Show/S01` exists. -/
def envSeasonDirOnly : Env :=
  { envAllClear with dirExists := fun d => decide (d = "/tv/Show/S01".toList) }

/-- Configuration corresponding to no filters, `--force`, default override. -/
def cfgForce : Cfg where
  resolution := none
  codec := none
  requireAiSubtitle := false
  overrideFiles := true

/- ------------------------------------------------------------------
   C5 — --no-override conflict
   ------------------------------------------------------------------ -/

/-- C5: when the destination file already exists and overwriting is disabled
    (`--no-override`, i.e. `override_files = false`), `move_file` returns the
    destination-exists failure and `shutil.move` is never invoked, so the
    source file stays in place. -/
theorem move_file_no_override_conflict (env : Env) (source_path target_dir : Str)
    (h : env.destExists (pathJoin target_dir (move_target_name source_path)) = true) :
    move_file env source_path target_dir false = (false, false) := by
  simp [move_file, h]

/-- C5 witness: a concrete conflicting move is rejected without any
    filesystem move. -/
theorem move_file_no_override_conflict_witness :
    move_file envDestTaken "/dl/Show.S01E01.1080p.mkv".toList "/tv/Show/S01".toList false =
      (false, false) :=
  move_file_no_override_conflict envDestTaken _ _ (by decide)

/- ------------------------------------------------------------------
   C7 — create_target_directory: idempotent creation, short-circuit on error
   ------------------------------------------------------------------ -/

/-- C7: placement resolution creates the show directory and then the season
    directory, each creation skipped without error (and without a makedirs
    call) when the directory already exists; when creating the show directory
    raises, the resolver returns `none` and makedirs is never attempted on
    the season directory.  The second component of the result lists the
    directories makedirs was invoked on, in order. -/
theorem create_target_directory_cases (env : Env) (base_dir show_name season : Str) :
    (env.dirExists (pathJoin base_dir (normalize_filename show_name)) = true →
      env.dirExists (pathJoin (pathJoin base_dir (normalize_filename show_name)) season) = true →
      create_target_directory env base_dir show_name season =
        (some (pathJoin (pathJoin base_dir (normalize_filename show_name)) season), [])) ∧
    (env.dirExists (pathJoin base_dir (normalize_filename show_name)) = true →
      env.dirExists (pathJoin (pathJoin base_dir (normalize_filename show_name)) season) = false →
      env.mkdirErr (pathJoin (pathJoin base_dir (normalize_filename show_name)) season) = none →
      create_target_directory env base_dir show_name season =
        (some (pathJoin (pathJoin base_dir (normalize_filename show_name)) season),
         [pathJoin (pathJoin base_dir (normalize_filename show_name)) season])) ∧
    (∀ e, env.dirExists (pathJoin base_dir (normalize_filename show_name)) = false →
      env.mkdirErr (pathJoin base_dir (normalize_filename show_name)) = some e →
      create_target_directory env base_dir show_name season =
        (none, [pathJoin base_dir (normalize_filename show_name)])) ∧
    (env.dirExists (pathJoin base_dir (normalize_filename show_name)) = false →
      env.mkdirErr (pathJoin base_dir (normalize_filename show_name)) = none →
      env.dirExists (pathJoin (pathJoin base_dir (normalize_filename show_name)) season) = true →
      create_target_directory env base_dir show_name season =
        (some (pathJoin (pathJoin base_dir (normalize_filename show_name)) season),
         [pathJoin base_dir (normalize_filename show_name)])) := by
  refine ⟨fun h1 h2 => ?_, fun h1 h2 h3 => ?_, fun e h1 h2 => ?_, fun h1 h2 h3 => ?_⟩ <;>
    simp [create_target_directory, h1, h2, *]

/-- C7 witness: the four behaviours at concrete inputs (both directories
    present; only the show directory present; show-directory creation raising;
    show directory absent but creatable with the season directory present). -/
theorem create_target_directory_cases_witness :
    create_target_directory envDirsExist "/tv".toList "Show".toList "S01".toList =
      (some (pathJoin (pathJoin "/tv".toList (normalize_filename "Show".toList)) "S01".toList),
        []) ∧
    create_target_directory envShowDirOnly "/tv".toList "Show".toList "S01".toList =
      (some (pathJoin (pathJoin "/tv".toList (normalize_filename "Show".toList)) "S01".toList),
        [pathJoin (pathJoin "/tv".toList (normalize_filename "Show".toList)) "S01".toList]) ∧
    create_target_directory envMkdirFails "/tv".toList "Show".toList "S01".toList =
      (none, [pathJoin "/tv".toList (normalize_filename "Show".toList)]) ∧
    create_target_directory envSeasonDirOnly "/tv".toList "Show".toList "S01".toList =
      (some (pathJoin (pathJoin "/tv".toList (normalize_filename "Show".toList)) "S01".toList),
        [pathJoin "/tv".toList (normalize_filename "Show".toList)]) :=
  ⟨(create_target_directory_cases envDirsExist _ _ _).1 (by decide) (by decide),
   (create_target_directory_cases envShowDirOnly _ _ _).2.1 (by decide) (by decide) (by decide),
   (create_target_directory_cases envMkdirFails _ _ _).2.2.1 MkdirErr.permission (by decide)
     (by decide),
   (create_target_directory_cases envSeasonDirOnly _ _ _).2.2.2 (by decide) (by decide)
     (by decide)⟩

/- ------------------------------------------------------------------
   C2 — cleanup safety
   ------------------------------------------------------------------ -/

/-- The C2 claim as stated: removal eligibility would guarantee that every
    file anywhere beneath the directory has a harmless-leftover extension. -/
def cleanupBeneathClaim : Prop :=
  ∀ d : FS, can_remove_directory d = true →
    ∀ f ∈ filesBeneath d, lowerStr (splitext f).2 ∈ IGNORED_EXTENSIONS

/-- Example tree refuting C2: a touched directory whose only entry is a
    subdirectory holding `video.mkv`. -/
def treeWithNestedVideo : FS :=
  FS.dir "d".toList [FS.dir "sub".toList [FS.file "video.mkv".toList]]

/-- C2 counterexample: `can_remove_directory` looks only at the immediate
    regular files, so a directory whose subdirectory holds `video.mkv` is
    eligible, yet `.mkv` is not a harmless-leftover extension and the
    recursive removal deletes it. -/
theorem cleanup_beneath_claim_refuted : ¬ cleanupBeneathClaim := by
  intro h
  have hmem : "video.mkv".toList ∈ filesBeneath treeWithNestedVideo := by
    simp [treeWithNestedVideo, filesBeneath, filesBeneathList]
  have h2 := h treeWithNestedVideo (by decide) "video.mkv".toList hmem
  revert h2
  decide

/-- C2 amended: a touched directory is eligible for removal exactly when it
    has no immediate regular files or every immediate regular file has a
    harmless-leftover extension (case-insensitively); entries inside
    subdirectories are never examined. -/
theorem can_remove_directory_iff (name : Str) (entries : List FS) :
    can_remove_directory (FS.dir name entries) = true ↔
      (immediateFiles entries = [] ∨
        ∀ f ∈ immediateFiles entries, lowerStr (splitext f).2 ∈ IGNORED_EXTENSIONS) := by
  by_cases h : immediateFiles entries = []
  · simp [can_remove_directory, h]
  · simp [can_remove_directory, h, List.all_eq_true]

/- ------------------------------------------------------------------
   C8 — cleanup evaluates deepest directories first
   ------------------------------------------------------------------ -/

theorem mem_insertDeep {z x : Str} {l : List Str} :
    z ∈ insertDeep x l ↔ z = x ∨ z ∈ l := by
  induction l with
  | nil => simp [insertDeep]
  | cons y ys ih =>
    by_cases h : sepCount x ≤ sepCount y
    · simp only [insertDeep, if_pos h, List.mem_cons, ih]
      tauto
    · simp only [insertDeep, if_neg h, List.mem_cons]

theorem pairwise_insertDeep {x : Str} {l : List Str}
    (h : l.Pairwise fun u v => sepCount v ≤ sepCount u) :
    (insertDeep x l).Pairwise fun u v => sepCount v ≤ sepCount u := by
  induction l with
  | nil => simp [insertDeep]
  | cons y ys ih =>
    rcases List.pairwise_cons.mp h with ⟨hy, hys⟩
    by_cases hc : sepCount x ≤ sepCount y
    · simp only [insertDeep, if_pos hc]
      refine List.pairwise_cons.mpr ⟨?_, ih hys⟩
      intro z hz
      rcases mem_insertDeep.mp hz with rfl | hz
      · exact hc
      · exact hy z hz
    · simp only [insertDeep, if_neg hc]
      refine List.pairwise_cons.mpr ⟨?_, h⟩
      intro z hz
      rcases List.mem_cons.mp hz with rfl | hz
      · omega
      · exact le_trans (hy z hz) (by omega)

theorem pairwise_sorted_dirs_aux (l : List Str) (acc : List Str)
    (h : acc.Pairwise fun u v => sepCount v ≤ sepCount u) :
    (l.foldl (fun acc x => insertDeep x acc) acc).Pairwise
      fun u v => sepCount v ≤ sepCount u := by
  induction l generalizing acc with
  | nil => exact h
  | cons x xs ih => exact ih _ (pairwise_insertDeep h)

theorem pairwise_sorted_dirs (l : List Str) :
    (sorted_dirs l).Pairwise fun u v => sepCount v ≤ sepCount u :=
  pairwise_sorted_dirs_aux l [] (List.Pairwise.nil)

/-- C8: cleanup orders the touched directories deepest first — whenever both
    a directory `a` and a strict descendant `a ++ "/" ++ r` occur in the
    sorted list, every occurrence of the descendant comes strictly before
    every occurrence of `a`, so the child is evaluated (and possibly removed)
    before its parent. -/
theorem cleanup_deepest_first (dirs : List Str) (a r : Str)
    (i j : Fin (sorted_dirs dirs).length)
    (hi : (sorted_dirs dirs).get i = a)
    (hj : (sorted_dirs dirs).get j = a ++ '/' :: r) : j < i := by
  have h1 : sepCount (a ++ '/' :: r) = sepCount a + sepCount ('/' :: r) := by
    simp [sepCount, List.count_append]
  have h2 : sepCount ('/' :: r) = sepCount r + 1 := by
    simp [sepCount, List.count_cons_self]
  by_contra hno
  have hij : i ≤ j := le_of_not_lt hno
  rcases lt_or_eq_of_le hij with hlt | heq
  · have h3 := (List.pairwise_iff_get.mp (pairwise_sorted_dirs dirs)) i j hlt
    rw [hi, hj] at h3
    omega
  · rw [heq] at hi
    have h4 : a = a ++ '/' :: r := hi.symm.trans hj
    have h5 := congrArg List.length h4
    simp only [List.length_append, List.length_cons] at h5
    omega

/-- Touched-directory list for the C8 witness. -/
def dirsC8 : List Str := ["/s".toList, "/s/a".toList]

/-- C8 witness: with touched directories `/s` and `/s/a`, the sorted order
    puts `/s/a` (index 0) before `/s` (index 1). -/
theorem cleanup_deepest_first_witness :
    (⟨0, by decide⟩ : Fin (sorted_dirs dirsC8).length) < ⟨1, by decide⟩ :=
  cleanup_deepest_first dirsC8 "/s".toList ['a'] ⟨1, by decide⟩ ⟨0, by decide⟩
    (by decide) (by decide)

/- ------------------------------------------------------------------
   C6 — exit code policy
   ------------------------------------------------------------------ -/

/-- C6: the program exits 1 exactly when the source directory is missing,
    the target directory is missing, or the target directory fails the
    read/write access probe; otherwise it exits 0, whatever per-file counts
    the run produced (they are universally quantified and absent from the
    conditions).  The single hypothesis is the filesystem truth that a path
    reported as a directory also exists. -/
theorem main_exit_code_iff (menv : MainEnv) (source_dir target_dir : Str)
    (counts : Nat × Nat × Nat × Nat)
    (hcoh : menv.isdir target_dir = true → menv.pathExists target_dir = true) :
    (mainExitCode menv source_dir target_dir counts = 1 ↔
      (menv.isdir source_dir = false ∨ menv.isdir target_dir = false ∨
        menv.accessRW target_dir = false)) ∧
    (mainExitCode menv source_dir target_dir counts = 0 ↔
      (menv.isdir source_dir = true ∧ menv.isdir target_dir = true ∧
        menv.accessRW target_dir = true)) := by
  rcases hs : menv.isdir source_dir with _ | _
  · simp [mainExitCode, hs]
  · rcases ht : menv.isdir target_dir with _ | _
    · simp [mainExitCode, hs, ht]
    · have hex := hcoh ht
      rcases ha : menv.accessRW target_dir with _ | _ <;>
        simp [mainExitCode, check_directory_permissions, hs, ht, hex, ha]

/-- A target directory that exists but fails the read/write access probe. -/
def menvNoWrite : MainEnv where
  isdir := fun _ => true
  pathExists := fun _ => true
  accessRW := fun _ => false
  accessW := fun _ => true

/-- C6 witness: with both directories present but no read/write access on
    the target, the run exits 1 (counts are irrelevant). -/
theorem main_exit_code_iff_witness :
    mainExitCode menvNoWrite "/dl".toList "/tv".toList (3, 4, 5, 0) = 1 :=
  (main_exit_code_iff menvNoWrite "/dl".toList "/tv".toList (3, 4, 5, 0)
      (fun _ => rfl)).1.mpr (Or.inr (Or.inr rfl))

/- ------------------------------------------------------------------
   C10 — case-insensitive extension gates, exact casing preserved on move
   ------------------------------------------------------------------ -/

theorem drop_takeWhile_length (p : Char → Bool) (l : List Char) :
    l.drop (l.takeWhile p).length = l.dropWhile p := by
  induction l with
  | nil => rfl
  | cons a t ih =>
    by_cases h : p a = true
    · simp [List.takeWhile_cons, List.dropWhile_cons, h, ih]
    · have h' : p a = false := by simpa using h
      simp [List.takeWhile_cons, List.dropWhile_cons, h']

theorem dropWhile_head_false {p : Char → Bool} {l : List Char} {h : Char} {t : List Char}
    (he : l.dropWhile p = h :: t) : p h = false := by
  induction l with
  | nil => simp at he
  | cons a rest ih =>
    by_cases hp : p a = true
    · exact ih (by simpa [List.dropWhile_cons, hp] using he)
    · have hp' : p a = false := by simpa using hp
      rw [List.dropWhile_cons, hp'] at he
      simp only [Bool.false_eq_true, if_false, List.cons.injEq] at he
      rw [← he.1]
      exact hp'

/-- `splitext` recomposes: root ++ ext = the original name. -/
theorem splitext_recomb (s : Str) : (splitext s).1 ++ (splitext s).2 = s := by
  unfold splitext
  split
  · simp
  next c before he =>
    have hdw : s.reverse.dropWhile (fun c => c ≠ '.') = c :: before := by
      rw [← drop_takeWhile_length]; exact he
    have hc : c = '.' := by
      have h2 := dropWhile_head_false hdw
      simpa using h2
    subst hc
    split
    · simp
    · have hsplit : s.reverse.takeWhile (fun c => c ≠ '.') ++ '.' :: before = s.reverse := by
        rw [← hdw]; exact List.takeWhile_append_dropWhile _ _
      have h3 := congrArg List.reverse hsplit
      simpa using h3

/-- The extension returned by `splitext` is empty or a dot followed by a
    dot-free tail. -/
theorem splitext_ext_shape (s : Str) :
    (splitext s).2 = [] ∨ ∃ ys, (splitext s).2 = '.' :: ys ∧ '.' ∉ ys := by
  unfold splitext
  split
  · simp
  next c before he =>
    split
    · simp
    · right
      refine ⟨(s.reverse.takeWhile (fun c => c ≠ '.')).reverse, rfl, ?_⟩
      intro hmem
      have h2 := List.mem_takeWhile_imp (List.mem_reverse.mp hmem)
      simp at h2

theorem hasDD_eq_false_of_nodot {l : Str} (h : '.' ∉ l) : hasDD l = false := by
  induction l with
  | nil => rfl
  | cons a t ih =>
    cases t with
    | nil => rfl
    | cons b t' =>
      have ha : a ≠ '.' := fun hc => h (hc ▸ List.mem_cons_self a _)
      have hrest : '.' ∉ b :: t' := fun hc => h (List.mem_cons_of_mem a hc)
      simpa [hasDD, ha] using ih hrest

theorem replaceDD_of_not_hasDD {l : Str} (h : hasDD l = false) : replaceDD l = l := by
  induction l using replaceDD.induct with
  | case1 => rfl
  | case2 c => rfl
  | case3 a b rest hdd ih => simp [hasDD, hdd] at h
  | case4 a b rest hdd ih =>
    simp only [hasDD, if_neg hdd] at h
    simp [replaceDD, if_neg hdd, ih h]

theorem replaceDD_append_dot (ys : Str) (hne : ys ≠ []) (hnd : '.' ∉ ys) (zs : Str) :
    ∃ zs', replaceDD (zs ++ '.' :: ys) = zs' ++ '.' :: ys := by
  induction zs using replaceDD.induct with
  | case1 =>
    rcases ys with _ | ⟨y, yt⟩
    · exact absurd rfl hne
    · have hy : y ≠ '.' := fun hc => hnd (hc ▸ List.mem_cons_self y _)
      have hfix : replaceDD (y :: yt) = y :: yt :=
        replaceDD_of_not_hasDD (hasDD_eq_false_of_nodot hnd)
      exact ⟨[], by simp [replaceDD, hy, hfix]⟩
  | case2 c =>
    rcases ys with _ | ⟨y, yt⟩
    · exact absurd rfl hne
    · have hy : y ≠ '.' := fun hc => hnd (hc ▸ List.mem_cons_self y _)
      have hfix : replaceDD (y :: yt) = y :: yt :=
        replaceDD_of_not_hasDD (hasDD_eq_false_of_nodot hnd)
      by_cases hc : c = '.'
      · subst hc
        exact ⟨[], by simp [replaceDD, hy, hfix]⟩
      · exact ⟨[c], by simp [replaceDD, hy, hc, hfix]⟩
  | case3 a b rest hdd ih =>
    obtain ⟨zs₁, heq⟩ := ih
    exact ⟨'.' :: zs₁, by simp [replaceDD, hdd, heq]⟩
  | case4 a b rest hdd ih =>
    obtain ⟨zs₁, heq⟩ := ih
    exact ⟨a :: zs₁, by simpa [replaceDD, hdd] using congrArg (a :: ·) heq⟩

theorem collapseDotsFuel_append_dot (ys : Str) (hne : ys ≠ []) (hnd : '.' ∉ ys)
    (fuel : Nat) :
    ∀ zs, ∃ zs', collapseDotsFuel fuel (zs ++ '.' :: ys) = zs' ++ '.' :: ys := by
  induction fuel with
  | zero => exact fun zs => ⟨zs, rfl⟩
  | succ n ih =>
    intro zs
    by_cases hdd : hasDD (zs ++ '.' :: ys) = true
    · simp only [collapseDotsFuel, hdd, if_true]
      obtain ⟨zs₁, heq⟩ := replaceDD_append_dot ys hne hnd zs
      rw [heq]
      exact ih zs₁
    · have hdd' : hasDD (zs ++ '.' :: ys) = false := by simpa using hdd
      exact ⟨zs, by simp [collapseDotsFuel, hdd']⟩

/-- Normalisation never disturbs a trailing dot-free, separator-free
    extension: the output still ends with it. -/
theorem normalize_ends_with_ext (root ys : Str) (hne : ys ≠ []) (hnd : '.' ∉ ys)
    (hsep : ∀ c ∈ '.' :: ys, isSep c = false) :
    ∃ zs', normalize_filename (root ++ '.' :: ys) = zs' ++ '.' :: ys := by
  unfold normalize_filename collapseDots
  rw [List.map_append, map_sepToDot_eq_self hsep]
  exact collapseDotsFuel_append_dot ys hne hnd _ _

theorem pyLower_of_isSep {c : Char} (h : isSep c = true) : pyLower c = c := by
  simp only [isSep, isPySpace, Bool.or_eq_true, decide_eq_true_eq, List.mem_cons,
    List.not_mem_nil, or_false] at h
  rcases h with (rfl | rfl | rfl | rfl | rfl | rfl) | (rfl | rfl | rfl | rfl) <;> decide

/-- Characters of a string whose lowercasing avoids separators are
    themselves not separators. -/
theorem ext_chars_not_sep {ext low : Str} (hlow : lowerStr ext = low)
    (hall : ∀ c ∈ low, isSep c = false) : ∀ c ∈ ext, isSep c = false := by
  intro c hc
  by_contra hs
  have hs' : isSep c = true := by simpa using hs
  have hmem : pyLower c ∈ lowerStr ext := List.mem_map_of_mem _ hc
  rw [pyLower_of_isSep hs', hlow] at hmem
  exact absurd (hall c hmem) (by simp [hs'])

/-- C10: extension membership is tested on the lowercased extension, so any
    casing of a supported video (resp. subtitle) extension passes the
    phase-1 (resp. phase-2) extension gate; and the destination filename
    composed by `move_file` ends with the file's original extension with its
    casing untouched. -/
theorem extension_casing (cfg : Cfg) (env : Env) (mv : List (Str × (Str × Str)))
    (base root fn sp : Str)
    (hsp : lowerStr (splitext (pyBasename sp)).2 ∈ VIDEO_EXTENSIONS ∨
      lowerStr (splitext (pyBasename sp)).2 ∈ SUBTITLE_EXTENSIONS) :
    (lowerStr (splitext fn).2 ∈ VIDEO_EXTENSIONS →
      phase1Step cfg env base root fn ≠ .notMedia) ∧
    (lowerStr (splitext fn).2 ∈ SUBTITLE_EXTENSIONS →
      phase2Step cfg env mv root fn ≠ .notMedia) ∧
    ((splitext (pyBasename sp)).2).isSuffixOf (move_target_name sp) = true := by
  refine ⟨?_, ?_, ?_⟩
  · intro h
    simp only [phase1Step, h, if_true]
    (repeat' split) <;> simp
  · intro h
    simp only [phase2Step, h, if_true]
    (repeat' split) <;> simp
  · rcases splitext_ext_shape (pyBasename sp) with hext | ⟨ys, hext, hnd⟩
    · rw [hext] at hsp
      exact absurd hsp (by decide)
    · have hlen4 : ((splitext (pyBasename sp)).2).length = 4 := by
        have hmaplen : (lowerStr ((splitext (pyBasename sp)).2)).length =
            ((splitext (pyBasename sp)).2).length := List.length_map _ _
        rcases hsp with hv | hv <;>
          · simp only [VIDEO_EXTENSIONS, SUBTITLE_EXTENSIONS, List.mem_cons,
              List.not_mem_nil, or_false] at hv
            rcases hv with hv | hv | hv <;> rw [← hmaplen, hv] <;> decide
      have hysne : ys ≠ [] := by
        rw [hext] at hlen4
        simp only [List.length_cons] at hlen4
        intro hc
        rw [hc] at hlen4
        simp at hlen4
      have hsep : ∀ c ∈ (splitext (pyBasename sp)).2, isSep c = false := by
        rcases hsp with hv | hv <;>
          · simp only [VIDEO_EXTENSIONS, SUBTITLE_EXTENSIONS, List.mem_cons,
              List.not_mem_nil, or_false] at hv
            rcases hv with hv | hv | hv <;> exact ext_chars_not_sep hv (by decide)
      have hrecomb := splitext_recomb (pyBasename sp)
      rw [hext] at hrecomb hsep
      obtain ⟨zs', hnorm⟩ :=
        normalize_ends_with_ext (splitext (pyBasename sp)).1 ys hysne hnd hsep
      rw [hrecomb] at hnorm
      simp only [move_target_name]
      rw [hext, hnorm]
      have hsuf : ('.' :: ys).isSuffixOf (zs' ++ '.' :: ys) = true :=
        List.isSuffixOf_iff_suffix.mpr (List.suffix_append _ _)
      rw [if_pos hsuf]
      exact List.isSuffixOf_iff_suffix.mpr (List.suffix_append _ _)

/-- C10 witness: `.MKV` passes the video gate, `.Srt` passes the subtitle
    gate, and the composed destination name for `Show.S01E01.MKV` still ends
    in `.MKV` exactly. -/
theorem extension_casing_witness :
    phase1Step cfgForce envAllClear "/tv".toList "/dl".toList
        "Show.S01E01.MKV".toList ≠ .notMedia ∧
    phase2Step cfgForce envAllClear [] "/dl".toList "Show.S01E01.Srt".toList ≠ .notMedia ∧
    ((splitext (pyBasename "/dl/Show.S01E01.MKV".toList)).2).isSuffixOf
      (move_target_name "/dl/Show.S01E01.MKV".toList) = true :=
  ⟨(extension_casing cfgForce envAllClear [] "/tv".toList "/dl".toList
      "Show.S01E01.MKV".toList "/dl/Show.S01E01.MKV".toList (Or.inl (by decide))).1
      (by decide),
   (extension_casing cfgForce envAllClear [] "/tv".toList "/dl".toList
      "Show.S01E01.Srt".toList "/dl/Show.S01E01.MKV".toList (Or.inl (by decide))).2.1
      (by decide),
   (extension_casing cfgForce envAllClear [] "/tv".toList "/dl".toList
      "Show.S01E01.MKV".toList "/dl/Show.S01E01.MKV".toList (Or.inl (by decide))).2.2⟩

/- ------------------------------------------------------------------
   C9 — marker immediately before the extension: classified as TV,
   extraction fails, counted as a failure
   ------------------------------------------------------------------ -/

/-- C9: a filename that the classifier accepts as a TV episode (the raw
    name, extension included, contains a bounded SxxExx token) but whose
    extension-stripped stem contains no bounded season marker — the shape of
    `Show.S01E01.mkv`, where the extension's dot supplied the trailing
    boundary — makes `extract_show_info` return no metadata, and the
    phase-1 driver, having passed the episode, filter and subtitle gates,
    counts the file as a failure rather than a skip. -/
theorem tv_marker_consumed_by_ext (cfg : Cfg) (env : Env) (base root fn : Str)
    (htv : is_tv_show fn = true)
    (hstem : searchSeasonAux (normalize_filename (splitext fn).1) 0 = none)
    (hvid : lowerStr (splitext fn).2 ∈ VIDEO_EXTENSIONS)
    (hfil : match_resolution_and_codec fn cfg.resolution cfg.codec = true)
    (hai : cfg.requireAiSubtitle = true → has_ai_subtitle env (pathJoin root fn) = true) :
    extract_show_info fn = none ∧ phase1Step cfg env base root fn = .failed := by
  have hex : extract_show_info fn = none := by
    simp [extract_show_info, hstem]
  refine ⟨hex, ?_⟩
  simp only [phase1Step, hvid, if_true, htv, hfil]
  have hcond : ¬(cfg.requireAiSubtitle = true ∧
      has_ai_subtitle env (pathJoin root fn) = false) := by
    rintro ⟨h1, h2⟩
    rw [hai h1] at h2
    simp at h2
  rw [if_neg hcond, hex]

/-- C9 witness: `Show.S01E01.mkv` is classified as a TV episode yet yields
    no metadata, and under `--force` with no filters the driver marks it
    failed. -/
theorem tv_marker_consumed_by_ext_witness :
    extract_show_info "Show.S01E01.mkv".toList = none ∧
    phase1Step cfgForce envAllClear "/tv".toList "/dl".toList
      "Show.S01E01.mkv".toList = .failed :=
  tv_marker_consumed_by_ext cfgForce envAllClear "/tv".toList "/dl".toList
    "Show.S01E01.mkv".toList (by decide) (by decide) (by decide) (by decide)
    (by decide)

/- ------------------------------------------------------------------
   C1 — subtitle association
   ------------------------------------------------------------------ -/

/-- First-match characterisation of the lines 437-441 record scan. -/
theorem findVideo_eq_some_iff (root sb td vb : Str) (mv : List (Str × (Str × Str))) :
    findVideo root sb mv = some (td, vb) ↔
      ∃ pre e post, mv = pre ++ e :: post ∧
        e.2.2 = root ∧ e.1.isPrefixOf sb = true ∧
        (∀ e' ∈ pre, ¬(e'.2.2 = root ∧ e'.1.isPrefixOf sb = true)) ∧
        td = e.2.1 ∧ vb = e.1 := by
  induction mv with
  | nil =>
    simp only [findVideo, Option.some.injEq]
    constructor
    · intro h; exact absurd h (by simp)
    · rintro ⟨pre, e, post, heq, _⟩
      exact absurd heq (by simp)
  | cons hd rest ih =>
    obtain ⟨vb', td', vr'⟩ := hd
    by_cases hc : vr' = root ∧ List.isPrefixOf vb' sb = true
    · simp only [findVideo, if_pos hc, Option.some.injEq, Prod.mk.injEq]
      constructor
      · rintro ⟨rfl, rfl⟩
        exact ⟨[], (vb', (td', vr')), rest, rfl, hc.1, hc.2, by simp, rfl, rfl⟩
      · rintro ⟨pre, e, post, heq, he1, he2, hpre, htd, hvb⟩
        cases pre with
        | nil =>
          simp only [List.nil_append, List.cons.injEq] at heq
          obtain ⟨hp, hrest⟩ := heq
          subst hp
          simp only at htd hvb
          exact ⟨htd.symm, hvb.symm⟩
        | cons p pre' =>
          simp only [List.cons_append, List.cons.injEq] at heq
          obtain ⟨hp, hrest⟩ := heq
          subst hp
          exact absurd hc (hpre _ (List.mem_cons_self _ _))
    · simp only [findVideo, if_neg hc]
      rw [ih]
      constructor
      · rintro ⟨pre, e, post, heq, he1, he2, hpre, htd, hvb⟩
        refine ⟨(vb', (td', vr')) :: pre, e, post, by simp [heq], he1, he2, ?_, htd, hvb⟩
        intro e' he'
        rcases List.mem_cons.mp he' with rfl | hm
        · exact hc
        · exact hpre e' hm
      · rintro ⟨pre, e, post, heq, he1, he2, hpre, htd, hvb⟩
        cases pre with
        | nil =>
          simp only [List.nil_append, List.cons.injEq] at heq
          obtain ⟨hp, hrest⟩ := heq
          subst hp
          exact absurd ⟨he1, he2⟩ hc
        | cons p pre' =>
          simp only [List.cons_append, List.cons.injEq] at heq
          refine ⟨pre', e, post, heq.2, he1, he2, ?_, htd, hvb⟩
          exact fun e' hm => hpre e' (List.mem_cons_of_mem p hm)

/-- C1 amended: a subtitle is relocated exactly when it passes the
    subtitle-extension, episode, and resolution/codec gates, the
    `moved_videos` record list contains an entry from the same source
    directory whose key (a video stem) is a — not necessarily strict —
    prefix of the subtitle's stem, and the move of the subtitle to the FIRST
    such entry's recorded target directory succeeds; the subtitle then lands
    in that entry's target directory. -/
theorem subtitle_relocation_iff (cfg : Cfg) (env : Env) (mv : List (Str × (Str × Str)))
    (root filename td : Str) :
    phase2Step cfg env mv root filename = .moved td ↔
      (lowerStr (splitext filename).2 ∈ SUBTITLE_EXTENSIONS ∧
       is_tv_show filename = true ∧
       match_resolution_and_codec filename cfg.resolution cfg.codec = true ∧
       ∃ pre e post, mv = pre ++ e :: post ∧
         e.2.2 = root ∧ e.1.isPrefixOf (splitext filename).1 = true ∧
         (∀ e' ∈ pre, ¬(e'.2.2 = root ∧ e'.1.isPrefixOf (splitext filename).1 = true)) ∧
         td = e.2.1 ∧
         (move_file env (pathJoin root filename) e.2.1 cfg.overrideFiles).1 = true) := by
  by_cases h1 : lowerStr (splitext filename).2 ∈ SUBTITLE_EXTENSIONS
  case neg => simp [phase2Step, h1]
  case pos =>
  by_cases h2 : is_tv_show filename = true
  case neg => simp [phase2Step, h1, h2]
  case pos =>
  by_cases h3 : match_resolution_and_codec filename cfg.resolution cfg.codec = true
  case neg => simp [phase2Step, h1, h2, h3]
  case pos =>
  simp only [phase2Step, h1, if_true, h2, h3, true_and]
  rcases hf : findVideo root (splitext filename).1 mv with _ | ⟨td', vb'⟩
  · simp only [Option.isNone_none]
    constructor
    · intro h; exact absurd h (by simp)
    · rintro ⟨pre, e, post, heq, he1, he2, hpre, htd, hmove⟩
      have : findVideo root (splitext filename).1 mv = some (e.2.1, e.1) :=
        (findVideo_eq_some_iff _ _ _ _ _).mpr ⟨pre, e, post, heq, he1, he2, hpre, rfl, rfl⟩
      rw [hf] at this
      exact absurd this (by simp)
  · obtain ⟨pre, e, post, heq, he1, he2, hpre, htd', hvb'⟩ :=
      (findVideo_eq_some_iff root (splitext filename).1 td' vb' mv).mp hf
    by_cases hm : (move_file env (pathJoin root filename) td' cfg.overrideFiles).1 = true
    · simp only [hm, if_true, FileOutcome.moved.injEq]
      constructor
      · intro h
        exact ⟨pre, e, post, heq, he1, he2, hpre, h.symm.trans htd', by rw [← htd']; exact hm⟩
      · rintro ⟨pre₂, e₂, post₂, heq₂, he1₂, he2₂, hpre₂, htd₂, hmove₂⟩
        have : findVideo root (splitext filename).1 mv = some (e₂.2.1, e₂.1) :=
          (findVideo_eq_some_iff _ _ _ _ _).mpr
            ⟨pre₂, e₂, post₂, heq₂, he1₂, he2₂, hpre₂, rfl, rfl⟩
        rw [hf] at this
        simp only [Option.some.injEq, Prod.mk.injEq] at this
        rw [htd₂, ← this.1]
    · have hm' : (move_file env (pathJoin root filename) td' cfg.overrideFiles).1 = false := by
        simpa using hm
      simp only [hm', Bool.false_eq_true, if_false]
      constructor
      · intro h; exact absurd h (by simp)
      · rintro ⟨pre₂, e₂, post₂, heq₂, he1₂, he2₂, hpre₂, htd₂, hmove₂⟩
        have : findVideo root (splitext filename).1 mv = some (e₂.2.1, e₂.1) :=
          (findVideo_eq_some_iff _ _ _ _ _).mpr
            ⟨pre₂, e₂, post₂, heq₂, he1₂, he2₂, hpre₂, rfl, rfl⟩
        rw [hf] at this
        simp only [Option.some.injEq, Prod.mk.injEq] at this
        rw [← this.1] at hmove₂
        exact absurd hmove₂ hm

/-- The C1 claim as stated, for a whole run: a subtitle file in the walk is
    relocated by phase 2 if and only if some video file of the walk in the
    same directory, whose stem is a STRICT prefix of the subtitle's stem,
    was itself successfully relocated by phase 1; and when relocated, every
    strictly-prefixed relocated video's target is the subtitle's target. -/
def subtitleStrictAssocClaim (cfg : Cfg) (env : Env) (base : Str) : Prop :=
  ∀ root files filename, (root, files) ∈ env.walk → filename ∈ files →
    lowerStr (splitext filename).2 ∈ SUBTITLE_EXTENSIONS →
    (((∃ td, phase2Step cfg env (phase1 cfg env base) root filename = .moved td) ↔
       (∃ entry, entry ∈ env.walk ∧ entry.1 = root ∧ ∃ vfn ∈ entry.2,
          lowerStr (splitext vfn).2 ∈ VIDEO_EXTENSIONS ∧
          (∃ td2, phase1Step cfg env base root vfn = .moved td2) ∧
          (splitext vfn).1.isPrefixOf (splitext filename).1 = true ∧
          (splitext vfn).1 ≠ (splitext filename).1)) ∧
     (∀ td vfn td2, phase2Step cfg env (phase1 cfg env base) root filename = .moved td →
        phase1Step cfg env base root vfn = .moved td2 →
        (splitext vfn).1.isPrefixOf (splitext filename).1 = true →
        (splitext vfn).1 ≠ (splitext filename).1 → td = td2))

/-- The concrete run refuting C1 as stated: one directory holding a video
    and its subtitle with IDENTICAL stems. -/
def envEqualStems : Env :=
  { envAllClear with
    walk := [("/dl".toList,
      ["Show.2021.S01E01.1080p.mkv".toList, "Show.2021.S01E01.1080p.srt".toList])] }

/-- C1 counterexample: in the `envEqualStems` run the subtitle
    `Show.2021.S01E01.1080p.srt` IS relocated (the scan uses `startswith`,
    which accepts the equal stem), yet no relocated video has its stem as a
    strict prefix of the subtitle's stem — so the claimed equivalence fails. -/
theorem subtitle_strict_assoc_refuted :
    ¬ subtitleStrictAssocClaim cfgForce envEqualStems "/tv".toList := by
  intro h
  have h2 := (h "/dl".toList
      ["Show.2021.S01E01.1080p.mkv".toList, "Show.2021.S01E01.1080p.srt".toList]
      "Show.2021.S01E01.1080p.srt".toList (by decide) (by decide) (by decide)).1
  have hl : ∃ td, phase2Step cfgForce envEqualStems
      (phase1 cfgForce envEqualStems "/tv".toList) "/dl".toList
      "Show.2021.S01E01.1080p.srt".toList = .moved td :=
    ⟨"/tv/Show/S01".toList, by decide⟩
  obtain ⟨entry, hmem, hroot, vfn, hvfn, hvid, _, hpref, hne⟩ := h2.mp hl
  have hentry : entry = ("/dl".toList,
      ["Show.2021.S01E01.1080p.mkv".toList, "Show.2021.S01E01.1080p.srt".toList]) := by
    simpa [envEqualStems, envAllClear] using hmem
  rw [hentry] at hvfn
  rcases List.mem_cons.mp hvfn with rfl | hvfn2
  · exact hne (by decide)
  · rcases List.mem_cons.mp hvfn2 with rfl | hvfn3
    · exact absurd hvid (by decide)
    · exact absurd hvfn3 (by simp)

/- ------------------------------------------------------------------
   C3 — title/year/season extraction on <Title>.<Year>.S<NN>E<MM>.<tags>
   ------------------------------------------------------------------ -/

theorem digit_cases {c : Char} (h : isDigit c = true) :
    c = '0' ∨ c = '1' ∨ c = '2' ∨ c = '3' ∨ c = '4' ∨ c = '5' ∨ c = '6' ∨ c = '7' ∨
      c = '8' ∨ c = '9' := by
  simpa [isDigit] using h

theorem digit_not_sep {c : Char} (h : isDigit c = true) : isSep c = false := by
  rcases digit_cases h with rfl | rfl | rfl | rfl | rfl | rfl | rfl | rfl | rfl | rfl <;> decide

theorem digit_not_boundary {c : Char} (h : isDigit c = true) : isBoundary c = false := by
  rcases digit_cases h with rfl | rfl | rfl | rfl | rfl | rfl | rfl | rfl | rfl | rfl <;> decide

theorem digit_ne_dot {c : Char} (h : isDigit c = true) : c ≠ '.' := by
  rcases digit_cases h with rfl | rfl | rfl | rfl | rfl | rfl | rfl | rfl | rfl | rfl <;> decide

theorem not_digit_ne {c d : Char} (h : isDigit c = false) (hd : isDigit d = true) : c ≠ d := by
  intro hc
  rw [hc, hd] at h
  exact absurd h (by simp)

theorem takeWhile_append_cons {p : Char → Bool} (u : List Char) (a : Char) (v : List Char)
    (hu : ∀ x ∈ u, p x = true) (ha : p a = false) :
    (u ++ a :: v).takeWhile p = u := by
  induction u with
  | nil => simp [List.takeWhile_cons, ha]
  | cons c u' ih =>
    simp only [List.cons_append, List.takeWhile_cons, hu c (List.mem_cons_self c u'), if_true]
    rw [ih fun x hx => hu x (List.mem_cons_of_mem c hx)]

/-- `splitext` on a name of the form `stem ++ '.' ++ etail` with a dot-free,
    non-empty `etail` and a non-dot character somewhere in `stem`. -/
theorem splitext_append (stem etail : Str) (hnd : '.' ∉ etail)
    (hsome : ∃ c ∈ stem, c ≠ '.') :
    splitext (stem ++ '.' :: etail) = (stem, '.' :: etail) := by
  have hrev : (stem ++ '.' :: etail).reverse = etail.reverse ++ '.' :: stem.reverse := by
    simp
  have htw : (etail.reverse ++ '.' :: stem.reverse).takeWhile (fun c => c ≠ '.') =
      etail.reverse := by
    apply takeWhile_append_cons
    · intro x hx
      simp only [decide_eq_true_eq]
      exact fun hc => hnd (List.mem_reverse.mp (hc ▸ hx))
    · simp
  have hall : stem.reverse.all (fun c => c = '.') = false := by
    obtain ⟨c, hc, hcne⟩ := hsome
    by_contra hb
    have hb' : stem.reverse.all (fun c => c = '.') = true := by simpa using hb
    have := List.all_eq_true.mp hb' c (List.mem_reverse.mpr hc)
    simp only [decide_eq_true_eq] at this
    exact hcne this
  unfold splitext
  rw [hrev, htw, List.drop_left]
  simp [hall, htw]

theorem hasDD_append_eq_false {u v : Str} (hu : hasDD u = false) (hv : hasDD v = false)
    (hj : ¬(u.getLast? = some '.' ∧ v.head? = some '.')) : hasDD (u ++ v) = false := by
  induction u using hasDD.induct with
  | case1 => simpa using hv
  | case2 a =>
    cases v with
    | nil => rfl
    | cons b t =>
      have hcond : ¬(a = '.' ∧ b = '.') := by
        rintro ⟨rfl, rfl⟩
        exact hj ⟨rfl, rfl⟩
      simpa [hasDD, hcond] using hv
  | case3 a b rest hdd =>
    simp [hasDD, hdd] at hu
  | case4 a b rest hdd ih =>
    simp only [hasDD, if_neg hdd] at hu
    have hj' : ¬((b :: rest).getLast? = some '.' ∧ v.head? = some '.') := by
      rwa [← List.getLast?_cons_cons (a := a)]
    simpa [hasDD, hdd] using ih hu hj'

theorem searchSeasonAux_cons_none {x : Char} {xs : Str} {i : Nat}
    (h : seasonHere (x :: xs) = none) :
    searchSeasonAux (x :: xs) i = searchSeasonAux xs (i + 1) := by
  simp [searchSeasonAux, h]

theorem searchSeasonAux_cons_some {x : Char} {xs : Str} {i n : Nat}
    (h : seasonHere (x :: xs) = some n) :
    searchSeasonAux (x :: xs) i = some (i, n) := by
  simp [searchSeasonAux, h]

theorem searchYearAux_cons_false {x : Char} {xs : Str} {i : Nat}
    (h : yearHere (x :: xs) = false) :
    searchYearAux (x :: xs) i = searchYearAux xs (i + 1) := by
  simp [searchYearAux, h]

theorem searchYearAux_cons_true {x : Char} {xs : Str} {i : Nat}
    (h : yearHere (x :: xs) = true) :
    searchYearAux (x :: xs) i = some i := by
  simp [searchYearAux, h]

theorem digit_not_Ss {c : Char} (h : isDigit c = true) : ¬(c = 'S' ∨ c = 's') := by
  rcases digit_cases h with rfl | rfl | rfl | rfl | rfl | rfl | rfl | rfl | rfl | rfl <;> decide

/-- Scanning a digit-free prefix finds no season match: a match demands a
    digit two characters after its start, and the first digit of the string
    sits right after the core's leading dot. -/
theorem searchSeasonAux_append (u : Str) (hu : ∀ c ∈ u, isDigit c = false)
    (c1 : Char) (rest : Str) (i : Nat) :
    searchSeasonAux (u ++ '.' :: c1 :: rest) i =
      searchSeasonAux ('.' :: c1 :: rest) (i + u.length) := by
  induction u generalizing i with
  | nil => simp
  | cons a u' ih =>
    have hnone : seasonHere (a :: (u' ++ '.' :: c1 :: rest)) = none := by
      cases u' with
      | nil => simp [seasonHere]
      | cons b u'' =>
        by_cases hbS : isBoundary a = true ∧ (b = 'S' ∨ b = 's')
        · cases u'' with
          | nil =>
            simp [seasonHere, hbS, seasonDigits, show isDigit '.' = false from by decide]
          | cons d u''' =>
            have hd : isDigit d = false := hu d (by simp)
            simp [seasonHere, hbS, seasonDigits, hd]
        · simp [seasonHere, hbS]
    have harith : i + (a :: u').length = i + 1 + u'.length := by
      simp [List.length_cons]; omega
    rw [harith, List.cons_append, searchSeasonAux_cons_none hnone]
    exact ih (fun c hc => hu c (List.mem_cons_of_mem a hc)) (i + 1)

theorem yearHere_false_of_second (a b : Char) (w : Str) (hb1 : b ≠ '1') (hb2 : b ≠ '2') :
    yearHere (a :: b :: w) = false := by
  rcases w with _ | ⟨w1, _ | ⟨w2, _ | ⟨w3, _ | ⟨w4, ww⟩⟩⟩⟩ <;> simp [yearHere, hb1, hb2]

/-- Scanning a digit-free prefix finds no year match either: a match demands
    `1` or `2` right after its start. -/
theorem searchYearAux_append (u : Str) (hu : ∀ c ∈ u, isDigit c = false)
    (c1 : Char) (rest : Str) (i : Nat) :
    searchYearAux (u ++ '.' :: c1 :: rest) i =
      searchYearAux ('.' :: c1 :: rest) (i + u.length) := by
  induction u generalizing i with
  | nil => simp
  | cons a u' ih =>
    have hfalse : yearHere (a :: (u' ++ '.' :: c1 :: rest)) = false := by
      cases u' with
      | nil => exact yearHere_false_of_second a '.' _ (by decide) (by decide)
      | cons b u'' =>
        have hb : isDigit b = false := hu b (by simp)
        exact yearHere_false_of_second a b _
          (not_digit_ne hb (by decide)) (not_digit_ne hb (by decide))
    have harith : i + (a :: u').length = i + 1 + u'.length := by
      simp [List.length_cons]; omega
    rw [harith, List.cons_append, searchYearAux_cons_false hfalse]
    exact ih (fun c hc => hu c (List.mem_cons_of_mem a hc)) (i + 1)

/-- The year scanner matches the `<Year>` token at the head of the core. -/
theorem searchYearAux_core (y1 y2 y3 y4 : Char) (tl : Str) (i : Nat)
    (hY12 : (y1 = '1' ∧ y2 = '9') ∨ (y1 = '2' ∧ y2 = '0'))
    (hY3 : isDigit y3 = true) (hY4 : isDigit y4 = true) :
    searchYearAux ('.' :: y1 :: y2 :: y3 :: y4 :: '.' :: tl) i = some i := by
  apply searchYearAux_cons_true
  rcases hY12 with ⟨rfl, rfl⟩ | ⟨rfl, rfl⟩ <;>
    simp [yearHere, hY3, hY4, show isBoundary '.' = true from by decide]

/-- The season scanner's first match in the core sits at offset 5 (the dot
    before `S`) and captures the two season digits greedily. -/
theorem searchSeasonAux_core (y1 y2 y3 y4 d1 d2 e1 e2 : Char) (tl : Str) (i : Nat)
    (hY12 : (y1 = '1' ∧ y2 = '9') ∨ (y1 = '2' ∧ y2 = '0'))
    (hY3 : isDigit y3 = true) (hY4 : isDigit y4 = true)
    (hd1 : isDigit d1 = true) (hd2 : isDigit d2 = true)
    (he1 : isDigit e1 = true) (he2 : isDigit e2 = true) :
    searchSeasonAux
      ('.' :: y1 :: y2 :: y3 :: y4 :: '.' :: 'S' :: d1 :: d2 :: 'E' :: e1 :: e2 :: '.' :: tl)
      i = some (i + 5, 10 * digitVal d1 + digitVal d2) := by
  have hdy1 : isDigit y1 = true := by
    rcases hY12 with ⟨rfl, _⟩ | ⟨rfl, _⟩ <;> decide
  have hdy2 : isDigit y2 = true := by
    rcases hY12 with ⟨_, rfl⟩ | ⟨_, rfl⟩ <;> decide
  have s0 : seasonHere ('.' :: y1 :: y2 :: y3 :: y4 :: '.' :: 'S' :: d1 :: d2 :: 'E'
      :: e1 :: e2 :: '.' :: tl) = none := by
    simp [seasonHere, digit_not_Ss hdy1]
  have s1 : seasonHere (y1 :: y2 :: y3 :: y4 :: '.' :: 'S' :: d1 :: d2 :: 'E'
      :: e1 :: e2 :: '.' :: tl) = none := by
    simp [seasonHere, digit_not_boundary hdy1]
  have s2 : seasonHere (y2 :: y3 :: y4 :: '.' :: 'S' :: d1 :: d2 :: 'E'
      :: e1 :: e2 :: '.' :: tl) = none := by
    simp [seasonHere, digit_not_boundary hdy2]
  have s3 : seasonHere (y3 :: y4 :: '.' :: 'S' :: d1 :: d2 :: 'E'
      :: e1 :: e2 :: '.' :: tl) = none := by
    simp [seasonHere, digit_not_boundary hY3]
  have s4 : seasonHere (y4 :: '.' :: 'S' :: d1 :: d2 :: 'E'
      :: e1 :: e2 :: '.' :: tl) = none := by
    simp [seasonHere, digit_not_boundary hY4]
  have s5 : seasonHere ('.' :: 'S' :: d1 :: d2 :: 'E' :: e1 :: e2 :: '.' :: tl) =
      some (10 * digitVal d1 + digitVal d2) := by
    simp [seasonHere, seasonDigits, epPart, epDigits, hd1, hd2, he1, he2,
      show isBoundary '.' = true from by decide]
  rw [searchSeasonAux_cons_none s0, searchSeasonAux_cons_none s1,
    searchSeasonAux_cons_none s2, searchSeasonAux_cons_none s3,
    searchSeasonAux_cons_none s4, searchSeasonAux_cons_some s5,
    show i + 1 + 1 + 1 + 1 + 1 = i + 5 from by omega]

theorem splitOnDot_ne_nil (l : Str) : splitOnDot l ≠ [] := by
  cases l with
  | nil => simp [splitOnDot]
  | cons c rest =>
    by_cases hc : c = '.'
    · simp [splitOnDot, hc]
    · simp only [splitOnDot, if_neg hc]
      rcases splitOnDot rest with _ | ⟨g, gs⟩ <;> simp

/-- Python `' '.join(s.split('.'))` is exactly dot-to-space substitution. -/
theorem joinSpace_splitOnDot (l : Str) :
    joinSpace (splitOnDot l) = l.map (fun c => if c = '.' then ' ' else c) := by
  induction l with
  | nil => rfl
  | cons c rest ih =>
    by_cases hc : c = '.'
    · subst hc
      simp only [splitOnDot, if_pos rfl]
      rcases hsp : splitOnDot rest with _ | ⟨g, gs⟩
      · exact absurd hsp (splitOnDot_ne_nil rest)
      · rw [hsp] at ih
        simp only [List.map_cons, if_pos rfl, ← ih]
        cases gs <;> simp [joinSpace]
    · simp only [splitOnDot, if_neg hc]
      rcases hsp : splitOnDot rest with _ | ⟨g, gs⟩
      · exact absurd hsp (splitOnDot_ne_nil rest)
      · rw [hsp] at ih
        cases gs with
        | nil =>
          simp only [joinSpace] at ih ⊢
          simp [hc, ih]
        | cons g2 gs' =>
          simp only [joinSpace] at ih ⊢
          simp [hc, ← ih]

/-- `str.strip()` is the identity when neither end is whitespace. -/
theorem pyStrip_eq_self {l : Str} (hh : ∀ c, l.head? = some c → isPySpace c = false)
    (hl : ∀ c, l.getLast? = some c → isPySpace c = false) : pyStrip l = l := by
  have h1 : l.dropWhile isPySpace = l := by
    cases l with
    | nil => rfl
    | cons a t => simp [List.dropWhile_cons, hh a rfl]
  unfold pyStrip
  rw [h1]
  have h2 : l.reverse.dropWhile isPySpace = l.reverse := by
    rcases hrev : l.reverse with _ | ⟨a, t⟩
    · rfl
    · have hlast : l.getLast? = some a := by
        rw [← List.head?_reverse, hrev]; rfl
      simp [List.dropWhile_cons, hl a hlast]
  rw [h2, List.reverse_reverse]

/-- `f"S{n:02d}"` undoes the two-digit parse: formatting `10*a + b` gives
    back the two digit characters. -/
theorem fmt02_two_digits (d1 d2 : Char) (h1 : isDigit d1 = true) (h2 : isDigit d2 = true) :
    fmt02 (10 * digitVal d1 + digitVal d2) = [d1, d2] := by
  rcases digit_cases h1 with rfl | rfl | rfl | rfl | rfl | rfl | rfl | rfl | rfl | rfl <;>
    rcases digit_cases h2 with rfl | rfl | rfl | rfl | rfl | rfl | rfl | rfl | rfl | rfl <;>
      decide

theorem hasDD_cons₂ {a b : Char} {rest : Str} (hab : ¬(a = '.' ∧ b = '.'))
    (h : hasDD (b :: rest) = false) : hasDD (a :: b :: rest) = false := by
  simp [hasDD, hab, h]

theorem not_pyspace_of_not_sep {c : Char} (h : isSep c = false) : isPySpace c = false := by
  by_contra hp
  have hp' : isPySpace c = true := by simpa using hp
  simp [isSep, hp'] at h

theorem ne_dot_of_head {t0 : Char} {ts : Str} (h : (t0 :: ts).head? ≠ some '.') :
    t0 ≠ '.' := by
  intro hc
  exact h (by rw [hc]; rfl)

/-- C3: on a filename of the shape `<Title>.<Year>.S<NN>E<MM>.<tags>` plus an
    extension — Title non-empty, separator-free, digit-free, with no
    adjacent dots and no dot at either end; Year of the form 19xx/20xx;
    NN/MM two digits; tags separator-free with no adjacent dots and no
    leading dot, otherwise arbitrary (so tag order is irrelevant);
    extension dot-free — extraction returns the Title with its dots
    rendered as spaces and the zero-padded two-digit season label `S<NN>`. -/
theorem extract_title_year_season
    (T tags etail : Str) (y1 y2 y3 y4 d1 d2 e1 e2 : Char)
    (hT0 : T ≠ [])
    (hTsep : ∀ c ∈ T, isSep c = false)
    (hTdig : ∀ c ∈ T, isDigit c = false)
    (hTdd : hasDD T = false)
    (hThead : T.head? ≠ some '.')
    (hTlast : T.getLast? ≠ some '.')
    (hY12 : (y1 = '1' ∧ y2 = '9') ∨ (y1 = '2' ∧ y2 = '0'))
    (hY3 : isDigit y3 = true) (hY4 : isDigit y4 = true)
    (hd1 : isDigit d1 = true) (hd2 : isDigit d2 = true)
    (he1 : isDigit e1 = true) (he2 : isDigit e2 = true)
    (htagsep : ∀ c ∈ tags, isSep c = false)
    (htagdd : hasDD tags = false)
    (htaghead : tags.head? ≠ some '.')
    (hetdot : '.' ∉ etail) :
    extract_show_info
      ((T ++ '.' :: y1 :: y2 :: y3 :: y4 :: '.' :: 'S' :: d1 :: d2 :: 'E' :: e1 :: e2
        :: '.' :: tags) ++ '.' :: etail) =
      some (T.map (fun c => if c = '.' then ' ' else c), ['S', d1, d2]) := by
  have hdy1 : isDigit y1 = true := by
    rcases hY12 with ⟨rfl, _⟩ | ⟨rfl, _⟩ <;> decide
  have hdy2 : isDigit y2 = true := by
    rcases hY12 with ⟨_, rfl⟩ | ⟨_, rfl⟩ <;> decide
  have hsplit : splitext
      ((T ++ '.' :: y1 :: y2 :: y3 :: y4 :: '.' :: 'S' :: d1 :: d2 :: 'E' :: e1 :: e2
        :: '.' :: tags) ++ '.' :: etail) =
      (T ++ '.' :: y1 :: y2 :: y3 :: y4 :: '.' :: 'S' :: d1 :: d2 :: 'E' :: e1 :: e2
        :: '.' :: tags, '.' :: etail) := by
    apply splitext_append _ _ hetdot
    exact ⟨'S', by simp, by decide⟩
  have hsepall : ∀ c ∈ T ++ '.' :: y1 :: y2 :: y3 :: y4 :: '.' :: 'S' :: d1 :: d2 :: 'E'
      :: e1 :: e2 :: '.' :: tags, isSep c = false := by
    intro c hc
    rcases List.mem_append.mp hc with hc | hc
    · exact hTsep c hc
    · simp only [List.mem_cons] at hc
      rcases hc with rfl | rfl | rfl | rfl | rfl | rfl | rfl | rfl | rfl | rfl | rfl |
        rfl | rfl | hc
      · decide
      · exact digit_not_sep hdy1
      · exact digit_not_sep hdy2
      · exact digit_not_sep hY3
      · exact digit_not_sep hY4
      · decide
      · decide
      · exact digit_not_sep hd1
      · exact digit_not_sep hd2
      · decide
      · exact digit_not_sep he1
      · exact digit_not_sep he2
      · decide
      · exact htagsep c hc
  have htag' : hasDD ('.' :: tags) = false := by
    cases tags with
    | nil => rfl
    | cons t0 ts =>
      exact hasDD_cons₂ (by simp [ne_dot_of_head htaghead]) htagdd
  have hcore : hasDD ('.' :: y1 :: y2 :: y3 :: y4 :: '.' :: 'S' :: d1 :: d2 :: 'E'
      :: e1 :: e2 :: '.' :: tags) = false := by
    apply hasDD_cons₂ (by simp [digit_ne_dot hdy1])
    apply hasDD_cons₂ (by simp [digit_ne_dot hdy1])
    apply hasDD_cons₂ (by simp [digit_ne_dot hdy2])
    apply hasDD_cons₂ (by simp [digit_ne_dot hY3])
    apply hasDD_cons₂ (by simp [digit_ne_dot hY4])
    apply hasDD_cons₂ (by simp)
    apply hasDD_cons₂ (by simp)
    apply hasDD_cons₂ (by simp [digit_ne_dot hd1])
    apply hasDD_cons₂ (by simp [digit_ne_dot hd2])
    apply hasDD_cons₂ (by simp)
    apply hasDD_cons₂ (by simp [digit_ne_dot he1])
    apply hasDD_cons₂ (by simp [digit_ne_dot he2])
    exact htag'
  have hdd : hasDD (T ++ '.' :: y1 :: y2 :: y3 :: y4 :: '.' :: 'S' :: d1 :: d2 :: 'E'
      :: e1 :: e2 :: '.' :: tags) = false := by
    apply hasDD_append_eq_false hTdd hcore
    rintro ⟨h1, _⟩
    exact hTlast h1
  have hnb : normalize_filename (T ++ '.' :: y1 :: y2 :: y3 :: y4 :: '.' :: 'S' :: d1
      :: d2 :: 'E' :: e1 :: e2 :: '.' :: tags) =
      T ++ '.' :: y1 :: y2 :: y3 :: y4 :: '.' :: 'S' :: d1 :: d2 :: 'E' :: e1 :: e2
      :: '.' :: tags := by
    unfold normalize_filename
    rw [map_sepToDot_eq_self hsepall]
    exact collapseDots_of_not_hasDD _ hdd
  have hseason : searchSeasonAux (T ++ '.' :: y1 :: y2 :: y3 :: y4 :: '.' :: 'S' :: d1
      :: d2 :: 'E' :: e1 :: e2 :: '.' :: tags) 0 =
      some (T.length + 5, 10 * digitVal d1 + digitVal d2) := by
    rw [searchSeasonAux_append T hTdig y1 _ 0,
      searchSeasonAux_core y1 y2 y3 y4 d1 d2 e1 e2 tags _ hY12 hY3 hY4 hd1 hd2 he1 he2,
      Nat.zero_add]
  have hyear : searchYearAux (T ++ '.' :: y1 :: y2 :: y3 :: y4 :: '.' :: 'S' :: d1
      :: d2 :: 'E' :: e1 :: e2 :: '.' :: tags) 0 = some T.length := by
    rw [searchYearAux_append T hTdig y1 _ 0,
      searchYearAux_core y1 y2 y3 y4 _ _ hY12 hY3 hY4, Nat.zero_add]
  have htake : (T ++ '.' :: y1 :: y2 :: y3 :: y4 :: '.' :: 'S' :: d1 :: d2 :: 'E'
      :: e1 :: e2 :: '.' :: tags).take T.length = T := List.take_left T _
  have hstrip : pyStrip (T.map (fun c => if c = '.' then ' ' else c)) =
      T.map (fun c => if c = '.' then ' ' else c) := by
    apply pyStrip_eq_self
    · intro c hc
      rw [List.head?_map] at hc
      rcases hh : T.head? with _ | ⟨t0⟩
      · rw [hh] at hc; simp at hc
      · rw [hh] at hc
        have hc2 : (if t0 = '.' then ' ' else t0) = c := by simpa using hc
        have ht0T : t0 ∈ T := List.mem_of_mem_head? (by rw [hh]; rfl)
        have ht0ne : t0 ≠ '.' := by
          intro hdot
          exact hThead (by rw [hh, hdot])
        rw [← hc2]
        simp only [if_neg ht0ne]
        exact not_pyspace_of_not_sep (hTsep t0 ht0T)
    · intro c hc
      rw [List.getLast?_map] at hc
      rcases hh : T.getLast? with _ | ⟨t0⟩
      · rw [hh] at hc; simp at hc
      · rw [hh] at hc
        have hc2 : (if t0 = '.' then ' ' else t0) = c := by simpa using hc
        have ht0T : t0 ∈ T := List.mem_of_mem_getLast? hh
        have ht0ne : t0 ≠ '.' := by
          intro hdot
          exact hTlast (by rw [hh, hdot])
        rw [← hc2]
        simp only [if_neg ht0ne]
        exact not_pyspace_of_not_sep (hTsep t0 ht0T)
  have hmapne : T.map (fun c => if c = '.' then ' ' else c) ≠ [] := by
    simpa using hT0
  simp only [extract_show_info]
  rw [hsplit]
  rw [hnb, hseason]
  rw [hyear]
  simp [htake, joinSpace_splitOnDot, hstrip, hmapne, fmt02_two_digits d1 d2 hd1 hd2]

/-- C3 witness: `Invasion.2021.S03E04.1080p.x265-ELiTE.mkv` extracts
    show name `Invasion` and season label `S03`. -/
theorem extract_title_year_season_witness :
    extract_show_info "Invasion.2021.S03E04.1080p.x265-ELiTE.mkv".toList =
      some ("Invasion".toList, "S03".toList) := by
  have h := extract_title_year_season "Invasion".toList "1080p.x265-ELiTE".toList
    "mkv".toList '2' '0' '2' '1' '0' '3' '0' '4'
    (by decide) (by decide) (by decide) (by decide) (by decide) (by decide)
    (by decide) (by decide) (by decide) (by decide) (by decide) (by decide)
    (by decide) (by decide) (by decide) (by decide) (by decide)
  have e1 : ("Invasion".toList ++ '.' :: '2' :: '0' :: '2' :: '1' :: '.' :: 'S' :: '0'
      :: '3' :: 'E' :: '0' :: '4' :: '.' :: "1080p.x265-ELiTE".toList) ++ '.' :: "mkv".toList =
      "Invasion.2021.S03E04.1080p.x265-ELiTE.mkv".toList := by decide
  have e2 : "Invasion".toList.map (fun c => if c = '.' then ' ' else c) =
      "Invasion".toList := by decide
  have e3 : (['S', '0', '3'] : Str) = "S03".toList := by decide
  rw [e1, e2, e3] at h
  exact h
